import Mathlib

/-!
Shallow embedding of the matching driver `src/matching/index-search-bib.py` of the
mzk-karticky repository, together with proofs about the properties of its
components: the distance-bounded matcher, the distance-budget schedule, the
query builder, the per-card run loop, overlap resolution and the candidate
selector.

Text is represented as `List Char` (Python strings are sequences of Unicode
code points).  Python dictionaries iterated in insertion order become
association lists; printing becomes an explicit log component; exceptions
become `Except` values.
-/

namespace MzkKarticky

/-- Python strings are sequences of Unicode code points. -/
abbrev Text := List Char

/-- Levenshtein edit distance (insertions, deletions, substitutions) between
two texts — the distance notion of the `fuzzysearch` library's `max_l_dist`
parameter used by the matching driver.  This is Mathlib's `levenshtein` with
the default unit-cost structure. -/
def edit_dist (xs ys : Text) : Nat := levenshtein Levenshtein.defaultCost xs ys

/-- Python slice `s[a:b]` for natural indices: characters `a, …, b-1`, clamped
to the length of `s`. -/
def pySliceNat (s : Text) (a b : Nat) : Text :=
  (s.drop a).take (b - a)

/-- All half-open windows `(i, j)` with `i ≤ j ≤ n`, enumerated in
lexicographic order (by start, then end). -/
def windows (n : Nat) : List (Nat × Nat) :=
  (List.range (n + 1)).flatMap fun i =>
    (List.range (n + 1 - i)).map fun k => (i, i + k)

/-- A single approximate occurrence, mirroring the `fuzzysearch.Match` object
(fields `start`, `end`, `dist`, `matched`; `end` is a Lean keyword, so the
field is called `stop`). -/
structure NearMatch where
  start : Nat
  stop : Nat
  dist : Nat
  matched : Text
deriving DecidableEq, Repr

/-- Modelled from the spec: the external `fuzzysearch.find_near_matches`
routine (a third-party library, not part of this repository) searches the
haystack for all substring occurrences of the pattern within `max_l_dist`
edits.  The model returns every window of the haystack whose edit distance to
the pattern is within the bound, enumerated by start offset. -/
def find_near_matches (pattern haystack : Text) (max_l_dist : Nat) : List NearMatch :=
  (windows haystack.length).filterMap fun ij =>
    let d := edit_dist pattern (pySliceNat haystack ij.1 ij.2)
    if d ≤ max_l_dist then some ⟨ij.1, ij.2, d, pySliceNat haystack ij.1 ij.2⟩ else none

/-- Python's `min(matches, key=lambda x: x.dist, default=None)`: the first
element of the list attaining the minimal `dist`, or `None` on an empty
list. -/
def pymin : List NearMatch → Option NearMatch
  | [] => none
  | m :: ms =>
    match pymin ms with
    | none => some m
    | some b => some (if b.dist < m.dist then b else m)

/-- `get_max_dist` from the matching driver.  `int(len(text) * 0.25)` is
`len(text) / 4` rounded toward zero (multiplication by the exactly
representable float `0.25` is exact division by `4`). -/
def get_max_dist (text : Text) : Nat :=
  if text.length < 6 then 1
  else if text.length < 11 then 2
  else min (text.length / 4) 6

/-- Python's `str.split()` with no separator: maximal runs of
non-whitespace characters (empty tokens never occur), built with an
accumulator holding the reversed current token. -/
def pySplitAux : Text → Text → List Text
  | [], acc => if acc = [] then [] else [acc.reverse]
  | c :: cs, acc =>
    if c.isWhitespace then
      if acc = [] then pySplitAux cs [] else acc.reverse :: pySplitAux cs []
    else pySplitAux cs (c :: acc)

/-- Python's `str.split()` with no separator. -/
def pySplit (s : Text) : List Text := pySplitAux s []

/-- Python's `str.split('\t')`: split at every tab, keeping empty chunks;
the result is always non-empty. -/
def pySplitTab : Text → List Text
  | [] => [[]]
  | c :: cs =>
    if c = '\t' then [] :: pySplitTab cs
    else
      match pySplitTab cs with
      | t :: ts => (c :: t) :: ts
      | [] => [[c]]

/-- Python's `str.strip()`: remove leading and trailing whitespace. -/
def pyStrip (s : Text) : Text :=
  ((s.dropWhile Char.isWhitespace).reverse.dropWhile Char.isWhitespace).reverse

/-- Python's `str.lower()` (modelled per code point). -/
def pyLower (s : Text) : Text := s.map Char.toLower

/-- Digit run to number. -/
def natOfDigits (ds : Text) : Nat :=
  ds.foldl (fun n c => 10 * n + (c.toNat - 48)) 0

/-- Python's `int(s)` on a decimal string: an optional minus sign followed by
a non-empty digit run; anything else raises `ValueError`, modelled as
`none`. -/
def pyInt (s : Text) : Option Int :=
  match s with
  | '-' :: ds =>
    if ds ≠ [] ∧ ds.all Char.isDigit then some (-(natOfDigits ds : Int)) else none
  | ds =>
    if ds ≠ [] ∧ ds.all Char.isDigit then some (natOfDigits ds : Int) else none

/-- Python slice `s[a:b]` with possibly negative indices: a negative index
counts from the end, and both bounds are clamped to `[0, len(s)]`. -/
def pySlice (s : Text) (a b : Int) : Text :=
  let n := s.length
  let norm : Int → Nat := fun i => if i < 0 then ((n : Int) + i).toNat else min i.toNat n
  pySliceNat s (norm a) (norm b)

/-- A `whoosh.query.FuzzyTerm(fieldname, text, maxdist=…, prefixlength=…)`. -/
structure FuzzyTerm where
  fieldname : Text
  text : Text
  maxdist : Nat
  prefixlength : Nat
deriving DecidableEq, Repr

/-- The query shape produced by the driver: `whoosh.query.Or(fuzzy_terms)`. -/
inductive Query where
  | Or : List FuzzyTerm → Query
deriving DecidableEq

/-- The fuzzy-term list built by `search_phrase`: for every label/text pair,
whitespace tokens longer than 3 characters become fuzzy terms with
`maxdist=2, prefixlength=0`; tokens of an `"Author"`-labeled text are emitted
against both `author1` and `author2`, every other label maps to the
same-named lowercase field.  (The source also computes `get_max_dist(text)`
here but never uses it.) -/
def fuzzy_terms_of (alignments : List (Text × List Text)) : List FuzzyTerm :=
  alignments.flatMap fun la =>
    la.2.flatMap fun text =>
      ((pySplit text).filter fun w => 3 < w.length).flatMap fun word =>
        if la.1 = "Author".data then
          [⟨"author1".data, word, 2, 0⟩, ⟨"author2".data, word, 2, 0⟩]
        else
          [⟨pyLower la.1, word, 2, 0⟩]

/-- Outcome of the decorated retrieval call: either the ranked record-id list
or a timeout.  Modelled from the spec: the `@timeout(60)` decorator
(`src.alignment.timeout`, not in the repository sources) aborts the wrapped
call with a `TimeoutError` when the wall-clock budget expires. -/
inductive SearchOutcome where
  | timeout : SearchOutcome
  | ok : List Text → SearchOutcome
deriving DecidableEq, Repr

/-- The wall-clock budget of the `@timeout(60)` decorator on
`search_phrase`, in seconds. -/
def search_timeout_seconds : Nat := 60

/-- `search_phrase`: builds the OR-of-fuzzy-terms query and runs it against
the searcher (an oracle for the external whoosh index), under the timeout
decorator. -/
def search_phrase (searcher : Query → SearchOutcome)
    (alignments : List (Text × List Text)) (ocr : Text) : SearchOutcome :=
  searcher (Query.Or (fuzzy_terms_of alignments))

/-- One field-span dictionary `{"label": …, "text": …, "from": …, "to": …}`
(the keys `from`/`to` become `start`/`stop`, `from` being a Lean keyword). -/
structure AlignedField where
  label : Text
  text : Text
  start : Nat
  stop : Nat
deriving DecidableEq, Repr

/-- The raw field spans collected by `match_candidate` before overlap
resolution: each generated label/text pair is located in the OCR text by
`find_near_matches` under the `get_max_dist` budget, and the first
lowest-distance occurrence (Python `min` with `default=None`) is kept.
An empty pattern makes `find_near_matches` raise `ValueError`, which the
source catches and skips (`continue`).  The record-field expansion
`generate_db_records` lives in `src/helper.py`, which is not in the
repository sources, so it is a parameter `gen`. -/
def candidate_fields (gen : Text → Text → List (Text × Text))
    (ocr : Text) (db_entries : List (Text × Text)) : List AlignedField :=
  (db_entries.flatMap fun rt => gen rt.1 rt.2).filterMap fun lt =>
    if lt.2 = [] then none
    else
      match pymin (find_near_matches lt.2 ocr (get_max_dist lt.2)) with
      | none => none
      | some lowest => some ⟨lt.1, lowest.matched, lowest.start, lowest.stop⟩

/-- Insertion-sort comparison on spans: by start offset. -/
def fieldLe (a b : AlignedField) : Prop := a.start ≤ b.start

instance : DecidableRel fieldLe := fun a b => Nat.decLe a.start b.start

/-- Sweep over start-sorted spans keeping ranges disjoint: a span overlapping
the previously kept range is truncated to the remaining portion and dropped
when nothing remains. -/
def resolveSweep : Nat → List AlignedField → List AlignedField
  | _, [] => []
  | cur, f :: fs =>
    let s := max f.start cur
    if s < f.stop then ⟨f.label, f.text, s, f.stop⟩ :: resolveSweep f.stop fs
    else resolveSweep cur fs

/-- Modelled from the spec: `correct_overlaps` from
`src.alignment.align_fuzzysearch` is imported by the driver but its source is
not in the repository.  Per the spec, the resolver returns spans with
pairwise-disjoint ranges sorted by start; an overlap loser is truncated to
its non-overlapping remainder (the spec's recommended policy) or dropped when
nothing remains, and on pathological input (an inverted range) resolution
fails, which the caller observes as an exception. -/
def correct_overlaps (fields : List AlignedField) : Except Text (List AlignedField) :=
  if fields.any fun f => f.stop < f.start then .error "invalid span".data
  else .ok (resolveSweep 0 (List.insertionSort fieldLe fields))

/-- `match_candidate`: collect raw spans, resolve overlaps (any exception is
caught, logged with the constant message `"Error during correcting
overlaps"`, and turns the candidate into an empty alignment), then re-slice
every surviving span's text from the original OCR text at its final range.
Returns the resolved spans together with the log lines printed.  The overlap
resolver is a parameter `co` because its implementation is external to the
sources; `correct_overlaps` above is its spec model. -/
def match_candidate (gen : Text → Text → List (Text × Text))
    (co : List AlignedField → Except Text (List AlignedField))
    (ocr : Text) (db_entries : List (Text × Text)) :
    List AlignedField × List Text :=
  match co (candidate_fields gen ocr db_entries) with
  | .error _ => ([], ["Error during correcting overlaps".data])
  | .ok resolved =>
    (resolved.map fun f => { f with text := pySliceNat ocr f.start f.stop }, [])

/-- Python's `max(x :: xs)` on naturals. -/
def pyMax (x : Nat) (xs : List Nat) : Nat := xs.foldl Nat.max x

/-- `numpy.argmax`: the index of the first occurrence of the maximum. -/
def npArgmax : List Nat → Nat
  | [] => 0
  | x :: xs => if xs.all fun y => y ≤ x then 0 else npArgmax xs + 1

/-- The selection step of `main`: scores are the lengths of the resolved
alignments; nothing is emitted for an empty candidate list
(`if not len(matches): continue`) or when the maximum score is below
`--min-matched-lines`; otherwise the first maximal-score candidate
(`np.argmax`) is emitted with its score and resolved alignment. -/
def select_candidate (results : List Text) (cand_matches : List (List AlignedField))
    (min_matched_lines : Int) : Option (Text × Nat × List AlignedField) :=
  match cand_matches.map List.length with
  | [] => none
  | s :: ss =>
    let mx := pyMax s ss
    if min_matched_lines ≤ (mx : Int) then
      let i := npArgmax (s :: ss)
      some (results.getD i [], mx, cand_matches.getD i [])
    else none

/-- The default of the `--min-matched-lines` argument. -/
def min_matched_lines_default : Int := 3

/-- The errors that can escape the processing of one card; none of them is
caught inside the main loop (which handles only `KeyboardInterrupt`). -/
inductive CardError where
  | malformedLine : CardError
  | missingOcr : CardError
  | missingRecord : CardError
deriving DecidableEq, Repr

/-- `parse_alignments`: each alignment chunk must split into exactly three
whitespace tokens `label start end` with integer offsets (anything else
raises `ValueError`); the label's slice of the OCR text is appended to the
label's list, insertion-ordered (the dict/`KeyError` idiom of the source). -/
def dict_append (m : List (Text × List Text)) (k : Text) (v : Text) :
    List (Text × List Text) :=
  match m with
  | [] => [(k, [v])]
  | (k', vs) :: rest =>
    if k' = k then (k', vs ++ [v]) :: rest else (k', vs) :: dict_append rest k v

/-- `parse_alignments` from the driver (see `dict_append`). -/
def parse_alignments (alignments : List Text) (ocr : Text) :
    Except CardError (List (Text × List Text)) :=
  alignments.foldlM
    (fun result alignment =>
      match pySplit alignment with
      | [label, start, stop] =>
        match pyInt start, pyInt stop with
        | some s, some e => .ok (dict_append result label (pySlice ocr s e))
        | _, _ => .error .malformedLine
      | _ => .error .malformedLine)
    []

/-- `load_ocr` (from `src/NER/helper.py`) looking up a card path in the OCR
LMDB transaction: a missing key makes `txn.get` return `None`, so the
subsequent `.decode()` raises `AttributeError`, modelled as
`CardError.missingOcr`.  (The character normalization the source then applies
belongs to the OCR text store per the spec, which states the store returns
already-normalized text; it is not exercised by any claim.) -/
def load_ocr (path : Text) (txn : Text → Option Text) : Except CardError Text :=
  match txn path with
  | none => .error .missingOcr
  | some t => .ok t

/-- The external collaborators of one run: the OCR store, the record store,
the index searcher, and the record-field generator. -/
structure Env where
  txn_ocr : Text → Option Text
  txn_bib : Text → Option (List (Text × Text))
  searcher : Query → SearchOutcome

/-- The mutable state of the main loop: the card counter and the two
accumulated output strings, plus the printed log. -/
structure RunState where
  nb_cards_searched : Nat
  matching_output : Text
  alignment_output : Text
  log : List Text
deriving DecidableEq, Repr

/-- `f"Timeout reached on file {file_path}, skipping"`. -/
def timeout_msg (file_path : Text) : Text :=
  "Timeout reached on file ".data ++ file_path ++ ", skipping".data

/-- `f"{file_path}\t{record_id}\t{score}\n"`. -/
def fmt_match_line (file_path rid : Text) (score : Nat) : Text :=
  file_path ++ "\t".data ++ rid ++ "\t".data ++ (toString score).data ++ "\n".data

/-- `f"{file_path}"` followed by one `f"\t{label} {from} {to}"` group per
resolved span and a newline. -/
def fmt_alignment_line (file_path : Text) (fields : List AlignedField) : Text :=
  file_path ++
    (fields.flatMap fun f =>
      "\t".data ++ f.label ++ " ".data ++ (toString f.start).data ++ " ".data ++
        (toString f.stop).data) ++ "\n".data

/-- One iteration of the main loop on one input line: split on tabs into the
card path and its alignment triples, load the OCR text (stripped path), parse
the alignments, bump the card counter, retrieve candidates (a timeout is
caught, logged and skips the card), fetch every candidate record (a missing
document is fatal), verify each candidate with `match_candidate`, and append
the output lines for the selected candidate, if any.  Uncaught `CardError`s
abort the fold in `run_lines`, matching the absence of a per-card handler in
the source. -/
def process_line (gen : Text → Text → List (Text × Text)) (env : Env)
    (min_matched_lines : Int) (st : RunState) (line : Text) :
    Except CardError RunState :=
  let parts := pySplitTab line
  let file_path := parts.headD []
  let alignments := parts.tail
  match load_ocr (pyStrip file_path) env.txn_ocr with
  | .error e => .error e
  | .ok ocr =>
    match parse_alignments alignments ocr with
    | .error e => .error e
    | .ok parsed =>
      let st := { st with nb_cards_searched := st.nb_cards_searched + 1 }
      match search_phrase env.searcher parsed ocr with
      | .timeout => .ok { st with log := st.log ++ [timeout_msg file_path] }
      | .ok results =>
        match results.mapM env.txn_bib with
        | none => .error .missingRecord
        | some records =>
          let cand_matches := records.map fun r =>
            (match_candidate gen correct_overlaps ocr r).1
          match select_candidate results cand_matches min_matched_lines with
          | none => .ok st
          | some (rid, score, align) =>
            .ok { st with
              matching_output := st.matching_output ++ fmt_match_line file_path rid score
              alignment_output :=
                st.alignment_output ++ fmt_alignment_line file_path align }

/-- The main loop over the selected input lines; an uncaught error aborts the
whole fold (only `KeyboardInterrupt` is handled in the source). -/
def run_lines (gen : Text → Text → List (Text × Text)) (env : Env)
    (min_matched_lines : Int) (lines : List Text) (st : RunState) :
    Except CardError RunState :=
  lines.foldlM (process_line gen env min_matched_lines) st

/-- The contiguous window `all_lines[idx:idx+10]` the main loop iterates
over. -/
def card_window (all_lines : List Text) (idx : Nat) : List Text :=
  (all_lines.drop idx).take 10

/-- The upper bound of `random.randint(0, 2e6)` (inclusive). -/
def randint_hi : Nat := 2000000

/-- The whole search loop of `main`: process exactly the window
`all_lines[idx:idx+10]` for the pseudorandomly drawn `idx`. -/
def main_loop (gen : Text → Text → List (Text × Text)) (env : Env)
    (min_matched_lines : Int) (all_lines : List Text) (idx : Nat) (st : RunState) :
    Except CardError RunState :=
  run_lines gen env min_matched_lines (card_window all_lines idx) st

/-- Substring test: does `needle` occur contiguously inside `hay`? -/
def contains_sub (needle hay : Text) : Bool :=
  (List.range (hay.length + 1)).any fun i => needle.isPrefixOf (hay.drop i)

/-! ## Lemmas about the distance-bounded matcher -/

theorem mem_windows (n : Nat) (i j : Nat) : (i, j) ∈ windows n ↔ i ≤ j ∧ j ≤ n := by
  simp only [windows, List.mem_flatMap, List.mem_map, List.mem_range, Prod.mk.injEq]
  constructor
  · rintro ⟨a, ha, k, hk, rfl, rfl⟩
    omega
  · rintro ⟨hij, hjn⟩
    exact ⟨i, by omega, j - i, by omega, rfl, by omega⟩

theorem windows_pairwise (n : Nat) :
    List.Pairwise (fun p q : Nat × Nat => p.1 ≤ q.1) (windows n) := by
  unfold windows
  rw [List.flatMap_def, List.pairwise_flatten]
  refine ⟨fun l hl => ?_, ?_⟩
  · rw [List.mem_map] at hl
    obtain ⟨i, _, rfl⟩ := hl
    rw [List.pairwise_map]
    exact (List.pairwise_le_range _).imp (fun _ => le_refl _)
  · rw [List.pairwise_map]
    refine (List.pairwise_lt_range _).imp ?_
    rintro a b hab x hx y hy
    rw [List.mem_map] at hx hy
    obtain ⟨k, _, rfl⟩ := hx
    obtain ⟨k', _, rfl⟩ := hy
    exact le_of_lt hab

theorem mem_find_near_matches {p h : Text} {d : Nat} {m : NearMatch} :
    m ∈ find_near_matches p h d ↔
      m.start ≤ m.stop ∧ m.stop ≤ h.length ∧
      m.dist = edit_dist p (pySliceNat h m.start m.stop) ∧ m.dist ≤ d ∧
      m.matched = pySliceNat h m.start m.stop := by
  simp only [find_near_matches, List.mem_filterMap]
  constructor
  · rintro ⟨⟨i, j⟩, hij, hm⟩
    rw [mem_windows] at hij
    simp only at hm
    split at hm
    case isTrue hle =>
      cases hm
      exact ⟨hij.1, hij.2, rfl, hle, rfl⟩
    case isFalse => exact absurd hm (by simp)
  · rintro ⟨h1, h2, h3, h4, h5⟩
    refine ⟨(m.start, m.stop), (mem_windows _ _ _).mpr ⟨h1, h2⟩, ?_⟩
    simp only
    rw [if_pos (h3 ▸ h4)]
    cases m
    simp_all

theorem pymin_eq_none {l : List NearMatch} : pymin l = none ↔ l = [] := by
  cases l with
  | nil => simp [pymin]
  | cons m ms =>
    simp only [pymin]
    cases pymin ms <;> simp

theorem pymin_mem {l : List NearMatch} : ∀ {m}, pymin l = some m → m ∈ l := by
  induction l with
  | nil => intro m h; cases h
  | cons a as ih =>
    intro m h
    simp only [pymin] at h
    cases hms : pymin as with
    | none =>
      rw [hms] at h
      cases h
      exact List.mem_cons_self _ _
    | some b =>
      rw [hms] at h
      cases h
      split
      · exact List.mem_cons_of_mem _ (ih hms)
      · exact List.mem_cons_self _ _

theorem pymin_le {l : List NearMatch} : ∀ {m}, pymin l = some m → ∀ x ∈ l, m.dist ≤ x.dist := by
  induction l with
  | nil => intro m h; cases h
  | cons a as ih =>
    intro m h x hx
    simp only [pymin] at h
    cases hms : pymin as with
    | none =>
      rw [hms] at h
      cases h
      rcases List.mem_cons.mp hx with rfl | hx'
      · exact le_refl _
      · rw [pymin_eq_none.mp hms] at hx'; cases hx'
    | some b =>
      rw [hms] at h
      cases h
      have hb := ih hms
      rcases List.mem_cons.mp hx with rfl | hx'
      · split <;> omega
      · have := hb x hx'
        split <;> omega

theorem pymin_first {l : List NearMatch} :
    ∀ {m}, List.Pairwise (fun a b : NearMatch => a.start ≤ b.start) l →
      pymin l = some m → ∀ x ∈ l, x.dist ≤ m.dist → m.start ≤ x.start := by
  induction l with
  | nil => intro m _ h; cases h
  | cons a as ih =>
    intro m hp h x hx hxd
    simp only [pymin] at h
    cases hms : pymin as with
    | none =>
      rw [hms] at h
      cases h
      rcases List.mem_cons.mp hx with rfl | hx'
      · exact le_refl _
      · rw [pymin_eq_none.mp hms] at hx'; cases hx'
    | some b =>
      rw [hms] at h
      cases h
      have hble := pymin_le hms
      rcases List.mem_cons.mp hx with rfl | hx'
      · by_cases hlt : b.dist < x.dist
        · simp only [if_pos hlt] at hxd
          omega
        · simp only [if_neg hlt]
          exact le_refl _
      · by_cases hlt : b.dist < a.dist
        · simp only [if_pos hlt] at hxd ⊢
          exact ih (List.pairwise_cons.mp hp).2 hms x hx' hxd
        · simp only [if_neg hlt]
          exact List.rel_of_pairwise_cons hp hx'

theorem find_near_matches_pairwise (p h : Text) (d : Nat) :
    List.Pairwise (fun a b : NearMatch => a.start ≤ b.start) (find_near_matches p h d) := by
  unfold find_near_matches
  rw [List.pairwise_filterMap]
  refine (windows_pairwise h.length).imp ?_
  intro ij ij' hle b hb b' hb'
  simp only at hb hb'
  split at hb
  · cases hb
    split at hb'
    · cases hb'
      exact hle
    · cases hb'
  · cases hb

/-- Claim C1: for every pattern, haystack and distance bound, the
distance-bounded matcher (`find_near_matches` followed by Python's `min` over
matches, as in `match_candidate`) returns only an occurrence whose edit
distance is at most the bound; among all occurrences within the bound it
returns the one with globally minimum distance, ties broken by earliest start
offset; and when no occurrence within the bound exists it returns no match,
so the field contributes nothing to the candidate's spans. -/
theorem distance_bounded_matcher (p h : Text) (d : Nat) :
    (∀ m, pymin (find_near_matches p h d) = some m →
      m.dist ≤ d ∧ m.start ≤ m.stop ∧ m.stop ≤ h.length ∧
      m.dist = edit_dist p (pySliceNat h m.start m.stop) ∧
      m.matched = pySliceNat h m.start m.stop ∧
      (∀ i j, i ≤ j → j ≤ h.length → edit_dist p (pySliceNat h i j) ≤ d →
        m.dist ≤ edit_dist p (pySliceNat h i j)) ∧
      (∀ i j, i ≤ j → j ≤ h.length → edit_dist p (pySliceNat h i j) = m.dist →
        m.start ≤ i)) ∧
    ((∀ i j, i ≤ j → j ≤ h.length → d < edit_dist p (pySliceNat h i j)) →
      pymin (find_near_matches p h d) = none) ∧
    (∀ label : Text, pymin (find_near_matches p h (get_max_dist p)) = none →
      candidate_fields (fun l t => [(l, t)]) h [(label, p)] = []) := by
  refine ⟨?_, ?_, ?_⟩
  case refine_3 =>
    intro label hnone
    by_cases hp : p = []
    · subst hp
      simp [candidate_fields]
    · simp [candidate_fields, hp, hnone]
  · intro m hsome
    have hm := mem_find_near_matches.mp (pymin_mem hsome)
    obtain ⟨h1, h2, h3, h4, h5⟩ := hm
    refine ⟨h4, h1, h2, h3, h5, ?_, ?_⟩
    · intro i j hij hjn hld
      have hx : (⟨i, j, edit_dist p (pySliceNat h i j), pySliceNat h i j⟩ : NearMatch) ∈
          find_near_matches p h d :=
        mem_find_near_matches.mpr ⟨hij, hjn, rfl, hld, rfl⟩
      exact pymin_le hsome _ hx
    · intro i j hij hjn heq
      have hx : (⟨i, j, edit_dist p (pySliceNat h i j), pySliceNat h i j⟩ : NearMatch) ∈
          find_near_matches p h d :=
        mem_find_near_matches.mpr ⟨hij, hjn, rfl, heq ▸ h4, rfl⟩
      exact pymin_first (find_near_matches_pairwise p h d) hsome _ hx (le_of_eq heq)
  · intro hall
    have : find_near_matches p h d = [] := by
      rw [find_near_matches, List.filterMap_eq_nil_iff]
      rintro ⟨i, j⟩ hij
      rw [mem_windows] at hij
      simp only
      rw [if_neg]
      exact Nat.not_le_of_lt (hall i j hij.1 hij.2)
    rw [this]
    rfl

/-- Claim C1 witness at a concrete instance: pattern `"ab"`, haystack
`"cab"`, bound 1 (a match at distance 0), and pattern `"xyzzy"` against
haystack `"ab"` (no occurrence within budget, empty contribution). -/
theorem distance_bounded_matcher_witness :
    pymin (find_near_matches "ab".data "cab".data 1) = some ⟨1, 3, 0, "ab".data⟩ ∧
    (⟨1, 3, 0, "ab".data⟩ : NearMatch).dist ≤ 1 ∧
    pymin (find_near_matches "xyzzy".data "ab".data (get_max_dist "xyzzy".data)) = none ∧
    candidate_fields (fun l t => [(l, t)]) "ab".data [("Title".data, "xyzzy".data)] = [] :=
  ⟨by decide,
   ((distance_bounded_matcher "ab".data "cab".data 1).1 _ (by decide)).1,
   by decide,
   (distance_bounded_matcher "xyzzy".data "ab".data 1).2.2 "Title".data (by decide)⟩

/-- Claim C2: the per-field distance budget `get_max_dist` is monotonic
non-decreasing in text length and bounded above by 6; it returns 1 for
lengths below 6, 2 for lengths below 11, and `min(floor(length * 0.25), 6)`
otherwise. -/
theorem get_max_dist_schedule (text : Text) :
    get_max_dist text ≤ 6 ∧
    (∀ t : Text, text.length ≤ t.length → get_max_dist text ≤ get_max_dist t) ∧
    (text.length < 6 → get_max_dist text = 1) ∧
    (6 ≤ text.length → text.length < 11 → get_max_dist text = 2) ∧
    (11 ≤ text.length → get_max_dist text = min (text.length / 4) 6) := by
  refine ⟨?_, fun t ht => ?_, fun h => ?_, fun h1 h2 => ?_, fun h => ?_⟩ <;>
    (simp only [get_max_dist, Nat.min_def]; split_ifs <;> omega)

/-- Claim C2 witness at concrete lengths 3 and 12. -/
theorem get_max_dist_schedule_witness :
    get_max_dist "abc".data = 1 ∧
    get_max_dist "abc".data ≤ get_max_dist (List.replicate 12 'a') ∧
    get_max_dist (List.replicate 12 'a') = min ((List.replicate 12 'a').length / 4) 6 :=
  ⟨(get_max_dist_schedule "abc".data).2.2.1 (by decide),
   (get_max_dist_schedule "abc".data).2.1 _ (by decide),
   (get_max_dist_schedule (List.replicate 12 'a')).2.2.2.2 (by decide)⟩

/-- Claim C4: the main loop iterates over at most 10 lines of the inference
input — the contiguous window `all_lines[idx:idx+10]` for a pseudorandomly
chosen `idx` in `[0, 2000000]` — so cards outside that window are never
processed, and two runs on identical inputs may process different cards
(different draws of `idx` give different windows). -/
theorem main_window (all_lines : List Text) (idx : Nat) (h : idx ≤ randint_hi) :
    (card_window all_lines idx).length ≤ 10 ∧
    (∀ l ∈ card_window all_lines idx, ∃ i, idx ≤ i ∧ i < idx + 10 ∧ all_lines[i]? = some l) ∧
    (∀ gen env mml st, main_loop gen env mml all_lines idx st =
      run_lines gen env mml (card_window all_lines idx) st) ∧
    (∃ lines i j, i ≤ randint_hi ∧ j ≤ randint_hi ∧ card_window lines i ≠ card_window lines j) := by
  refine ⟨List.length_take_le _ _, fun l hl => ?_, fun gen env mml st => rfl,
    ⟨[['a']], 0, 1, by simp [randint_hi], by simp [randint_hi], by simp [card_window]⟩⟩
  rw [List.mem_iff_getElem?] at hl
  obtain ⟨j, hj⟩ := hl
  have hjlt : j < 10 := by
    by_contra hge
    push_neg at hge
    have hnone : (card_window all_lines idx)[j]? = none :=
      List.getElem?_eq_none ((List.length_take_le _ _).trans hge)
    rw [hnone] at hj
    exact Option.noConfusion hj
  refine ⟨idx + j, Nat.le_add_right _ _, by omega, ?_⟩
  unfold card_window at hj
  rw [List.getElem?_take_of_lt hjlt, List.getElem?_drop] at hj
  exact hj

/-- Claim C4 witness: a concrete window. -/
theorem main_window_witness :
    (card_window ["a".data, "b".data] 1).length ≤ 10 ∧
    (∃ lines i j, i ≤ randint_hi ∧ j ≤ randint_hi ∧ card_window lines i ≠ card_window lines j) :=
  ⟨(main_window ["a".data, "b".data] 1 (by decide)).1,
   (main_window ["a".data, "b".data] 1 (by decide)).2.2.2⟩

/-- Membership in the built fuzzy-term list, in the raw shape of the
`search_phrase` loop. -/
theorem mem_fuzzy_terms (alignments : List (Text × List Text)) (t : FuzzyTerm) :
    t ∈ fuzzy_terms_of alignments ↔
      ∃ la ∈ alignments, ∃ text ∈ la.2, ∃ word ∈ pySplit text, 3 < word.length ∧
        (if la.1 = "Author".data
         then t = ⟨"author1".data, word, 2, 0⟩ ∨ t = ⟨"author2".data, word, 2, 0⟩
         else t = ⟨pyLower la.1, word, 2, 0⟩) := by
  simp only [fuzzy_terms_of, List.mem_flatMap, List.mem_filter, decide_eq_true_eq]
  constructor
  · rintro ⟨la, hla, text, htext, word, ⟨hword, hlen⟩, hmem⟩
    refine ⟨la, hla, text, htext, word, hword, hlen, ?_⟩
    split at hmem <;> split <;> simp_all
  · rintro ⟨la, hla, text, htext, word, hword, hlen, hmem⟩
    refine ⟨la, hla, text, htext, word, ⟨hword, hlen⟩, ?_⟩
    split at hmem <;> split <;> simp_all

/-- Claim C5: the query builder splits each field text on whitespace,
discards tokens of length at most 3, and emits one fuzzy term per remaining
token with edit-distance tolerance 2 and no required prefix match; tokens
under the `Author` label are emitted against both `author1` and `author2`,
every other label maps to the same-named lowercase field; and the final
query is a single OR-disjunction over all emitted terms. -/
theorem query_builder (alignments : List (Text × List Text)) :
    (∀ t ∈ fuzzy_terms_of alignments, t.maxdist = 2 ∧ t.prefixlength = 0) ∧
    (∀ t : FuzzyTerm, t ∈ fuzzy_terms_of alignments ↔
      (t.maxdist = 2 ∧ t.prefixlength = 0 ∧
       ∃ la ∈ alignments, ∃ text ∈ la.2,
         t.text ∈ pySplit text ∧ 3 < t.text.length ∧
         ((la.1 = "Author".data ∧
            (t.fieldname = "author1".data ∨ t.fieldname = "author2".data)) ∨
          (¬ la.1 = "Author".data ∧ t.fieldname = pyLower la.1)))) ∧
    (∀ searcher ocr, search_phrase searcher alignments ocr =
      searcher (Query.Or (fuzzy_terms_of alignments))) := by
  have key : ∀ t : FuzzyTerm, t ∈ fuzzy_terms_of alignments ↔
      (t.maxdist = 2 ∧ t.prefixlength = 0 ∧
       ∃ la ∈ alignments, ∃ text ∈ la.2,
         t.text ∈ pySplit text ∧ 3 < t.text.length ∧
         ((la.1 = "Author".data ∧
            (t.fieldname = "author1".data ∨ t.fieldname = "author2".data)) ∨
          (¬ la.1 = "Author".data ∧ t.fieldname = pyLower la.1))) := by
    intro t
    rw [mem_fuzzy_terms]
    constructor
    · rintro ⟨la, hla, text, htext, word, hword, hlen, hmem⟩
      split at hmem
      · rcases hmem with h | h <;> subst h <;>
          exact ⟨rfl, rfl, la, hla, text, htext, hword, hlen, by simp_all⟩
      · subst hmem
        exact ⟨rfl, rfl, la, hla, text, htext, hword, hlen, by simp_all⟩
    · rintro ⟨hmd, hpl, la, hla, text, htext, hword, hlen, hf⟩
      obtain ⟨f, w, md, pl⟩ := t
      simp only at hmd hpl hword hlen hf
      subst hmd hpl
      refine ⟨la, hla, text, htext, w, hword, hlen, ?_⟩
      rcases hf with ⟨hA, hf | hf⟩ | ⟨hA, hf⟩ <;> subst hf <;> simp [hA]
  exact ⟨fun t ht => ⟨((key t).mp ht).1, ((key t).mp ht).2.1⟩, key,
    fun searcher ocr => rfl⟩

/-- Claim C5 witness: concrete author and title terms. -/
theorem query_builder_witness :
    (⟨"author1".data, "Will".data, 2, 0⟩ : FuzzyTerm) ∈
      fuzzy_terms_of [("Author".data, ["Will S".data])] ∧
    (⟨"author2".data, "Will".data, 2, 0⟩ : FuzzyTerm) ∈
      fuzzy_terms_of [("Author".data, ["Will S".data])] ∧
    (⟨"title".data, "Tempest".data, 2, 0⟩ : FuzzyTerm) ∈
      fuzzy_terms_of [("Title".data, ["The Tempest".data])] :=
  ⟨((query_builder [("Author".data, ["Will S".data])]).2.1 _).mpr (by decide),
   ((query_builder [("Author".data, ["Will S".data])]).2.1 _).mpr (by decide),
   ((query_builder [("Title".data, ["The Tempest".data])]).2.1 _).mpr (by decide)⟩

/-! ## Lemmas about the selector -/

theorem pyMax_spec : ∀ (xs : List Nat) (x : Nat),
    (∀ y ∈ x :: xs, y ≤ pyMax x xs) ∧ pyMax x xs ∈ x :: xs := by
  intro xs
  induction xs with
  | nil => intro x; exact ⟨by simp [pyMax], by simp [pyMax]⟩
  | cons a as ih =>
    intro x
    have hstep : pyMax x (a :: as) = pyMax (max x a) as := rfl
    obtain ⟨hle, hmem⟩ := ih (max x a)
    constructor
    · intro y hy
      rw [hstep]
      rcases List.mem_cons.mp hy with rfl | hy'
      · exact le_trans (Nat.le_max_left _ _) (hle _ (List.mem_cons_self _ _))
      · rcases List.mem_cons.mp hy' with rfl | hy''
        · exact le_trans (Nat.le_max_right _ _) (hle _ (List.mem_cons_self _ _))
        · exact hle y (List.mem_cons_of_mem _ hy'')
    · rw [hstep]
      rcases List.mem_cons.mp hmem with heq | hmem'
      · rw [heq]
        rcases max_choice x a with hc | hc <;> rw [hc]
        · exact List.mem_cons_self _ _
        · exact List.mem_cons_of_mem _ (List.mem_cons_self _ _)
      · exact List.mem_cons_of_mem _ (List.mem_cons_of_mem _ hmem')

theorem npArgmax_lt_length : ∀ (l : List Nat), l ≠ [] → npArgmax l < l.length := by
  intro l
  induction l with
  | nil => intro h; exact absurd rfl h
  | cons x xs ih =>
    intro _
    simp only [npArgmax]
    split
    · simp
    · rename_i hall
      have hne : xs ≠ [] := by
        rintro rfl
        exact hall (by simp)
      simpa using Nat.succ_lt_succ (ih hne)

theorem npArgmax_getD_max : ∀ (l : List Nat), ∀ j < l.length,
    l.getD j 0 ≤ l.getD (npArgmax l) 0 := by
  intro l
  induction l with
  | nil => intro j hj; cases hj
  | cons x xs ih =>
    intro j hj
    simp only [npArgmax]
    split
    · rename_i hall
      rw [List.all_eq_true] at hall
      match j with
      | 0 => exact le_refl _
      | j + 1 =>
        simp only [List.getD_cons_succ, List.getD_cons_zero]
        have hjlt : j < xs.length := by simpa using hj
        have : xs.getD j 0 ∈ xs := by
          rw [List.getD_eq_getElem _ _ hjlt]
          exact List.getElem_mem _
        simpa using hall _ this
    · rename_i hall
      simp only [List.getD_cons_succ]
      have hex : ∃ y ∈ xs, ¬ y ≤ x := by
        by_contra hc
        push_neg at hc
        exact hall (List.all_eq_true.mpr fun y hy => decide_eq_true (hc y hy))
      obtain ⟨y, hy, hxy⟩ := hex
      match j with
      | 0 =>
        simp only [List.getD_cons_zero]
        obtain ⟨k, hk, rfl⟩ := List.mem_iff_getElem.mp hy
        calc x ≤ xs[k] := by omega
        _ = xs.getD k 0 := (List.getD_eq_getElem _ _ hk).symm
        _ ≤ xs.getD (npArgmax xs) 0 := ih k hk
      | j + 1 =>
        simp only [List.getD_cons_succ]
        exact ih j (by simpa using hj)

theorem npArgmax_first : ∀ (l : List Nat), ∀ j < npArgmax l,
    l.getD j 0 < l.getD (npArgmax l) 0 := by
  intro l
  induction l with
  | nil => intro j hj; simp [npArgmax] at hj
  | cons x xs ih =>
    intro j hj
    simp only [npArgmax] at hj ⊢
    split
    · rename_i hall
      rw [if_pos hall] at hj
      cases hj
    · rename_i hall
      rw [if_neg hall] at hj
      have hex : ∃ y ∈ xs, ¬ y ≤ x := by
        by_contra hc
        push_neg at hc
        exact hall (List.all_eq_true.mpr fun y hy => decide_eq_true (hc y hy))
      obtain ⟨y, hy, hxy⟩ := hex
      match j with
      | 0 =>
        simp only [List.getD_cons_zero, List.getD_cons_succ]
        obtain ⟨k, hk, rfl⟩ := List.mem_iff_getElem.mp hy
        calc x < xs[k] := by omega
        _ = xs.getD k 0 := (List.getD_eq_getElem _ _ hk).symm
        _ ≤ xs.getD (npArgmax xs) 0 := npArgmax_getD_max xs k hk
      | j + 1 =>
        simp only [List.getD_cons_succ]
        exact ih j (by omega)

theorem npArgmax_getD_eq_pyMax (x : Nat) (xs : List Nat) :
    (x :: xs).getD (npArgmax (x :: xs)) 0 = pyMax x xs := by
  obtain ⟨hle, hmem⟩ := pyMax_spec xs x
  have h1 : (x :: xs).getD (npArgmax (x :: xs)) 0 ≤ pyMax x xs := by
    have hlt := npArgmax_lt_length (x :: xs) (by simp)
    have : (x :: xs).getD (npArgmax (x :: xs)) 0 ∈ x :: xs := by
      rw [List.getD_eq_getElem _ _ hlt]
      exact List.getElem_mem _
    exact hle _ this
  have h2 : pyMax x xs ≤ (x :: xs).getD (npArgmax (x :: xs)) 0 := by
    obtain ⟨k, hk, hkeq⟩ := List.mem_iff_getElem.mp hmem
    calc pyMax x xs = (x :: xs).getD k 0 := by rw [List.getD_eq_getElem _ _ hk, hkeq]
    _ ≤ _ := npArgmax_getD_max _ k hk
  omega

theorem getD_map_length (cand_matches : List (List AlignedField)) (i : Nat)
    (hi : i < cand_matches.length) :
    (cand_matches.map List.length).getD i 0 = (cand_matches.getD i []).length := by
  rw [List.getD_eq_getElem _ _ (by simpa using hi), List.getD_eq_getElem _ _ hi,
    List.getElem_map]

theorem select_candidate_eq_some {results : List Text}
    {cand_matches : List (List AlignedField)} {mml : Int} {rid : Text} {score : Nat}
    {align : List AlignedField}
    (h : select_candidate results cand_matches mml = some (rid, score, align)) :
    ∃ i, i = npArgmax (cand_matches.map List.length) ∧ i < cand_matches.length ∧
      rid = results.getD i [] ∧ align = cand_matches.getD i [] ∧
      score = (cand_matches.getD i []).length ∧
      (∀ j < cand_matches.length, (cand_matches.getD j []).length ≤ score) ∧
      (∀ j < i, (cand_matches.getD j []).length < score) ∧
      mml ≤ (score : Int) := by
  unfold select_candidate at h
  cases hm : cand_matches.map List.length with
  | nil => rw [hm] at h; cases h
  | cons s ss =>
    rw [hm] at h
    simp only at h
    split at h
    case isFalse => cases h
    case isTrue hth =>
      cases h
      have hlen : cand_matches.length = (s :: ss).length := by
        rw [← hm, List.length_map]
      have harglt : npArgmax (s :: ss) < cand_matches.length := by
        rw [hlen]
        exact npArgmax_lt_length _ (by simp)
      have hmaxeq : (cand_matches.getD (npArgmax (s :: ss)) []).length = pyMax s ss := by
        rw [← getD_map_length _ _ harglt, hm, npArgmax_getD_eq_pyMax]
      refine ⟨npArgmax (s :: ss), by simp [hm], harglt, rfl, rfl, hmaxeq.symm, ?_, ?_, hth⟩
      · intro j hj
        have hmax := npArgmax_getD_max (cand_matches.map List.length) j
          (by simpa using hj)
        rw [getD_map_length _ _ hj, hm, npArgmax_getD_eq_pyMax] at hmax
        exact hmax
      · intro j hjlt
        have hfirst := npArgmax_first (cand_matches.map List.length) j (by rw [hm]; exact hjlt)
        have hjlt' : j < cand_matches.length := lt_trans hjlt harglt
        rw [getD_map_length _ _ hjlt', hm, npArgmax_getD_eq_pyMax] at hfirst
        exact hfirst

theorem select_candidate_none_of_below {results : List Text}
    {cand_matches : List (List AlignedField)} {mml : Int}
    (hb : ∀ m ∈ cand_matches, (m.length : Int) < mml) :
    select_candidate results cand_matches mml = none := by
  unfold select_candidate
  cases hm : cand_matches.map List.length with
  | nil => rfl
  | cons s ss =>
    simp only
    rw [if_neg]
    intro hth
    have hmem : pyMax s ss ∈ s :: ss := (pyMax_spec ss s).2
    rw [← hm] at hmem
    rw [List.mem_map] at hmem
    obtain ⟨m, hmmem, hmeq⟩ := hmem
    have := hb m hmmem
    omega

theorem select_candidate_nil {results : List Text} {mml : Int} :
    select_candidate results [] mml = none := rfl

/-- Claim C3: for every card with a non-empty candidate list, each
candidate's score equals the number of spans surviving overlap resolution
for that candidate (`match_candidate`); the emitted result names the
candidate with the maximum score, ties broken by the earliest position in
the retrieval ranking (`np.argmax` returns the first maximum); and when the
maximum score is below `--min-matched-lines`, no result is emitted for the
card. -/
theorem selector_spec (gen : Text → Text → List (Text × Text))
    (co : List AlignedField → Except Text (List AlignedField))
    (ocr : Text) (results : List Text) (records : List (List (Text × Text)))
    (mml : Int) :
    (∀ rid score align,
      select_candidate results
          (records.map fun r => (match_candidate gen co ocr r).1) mml =
        some (rid, score, align) →
      ∃ i, i < records.length ∧
        rid = results.getD i [] ∧
        align = (match_candidate gen co ocr (records.getD i [])).1 ∧
        score = (match_candidate gen co ocr (records.getD i [])).1.length ∧
        (∀ j < records.length,
          (match_candidate gen co ocr (records.getD j [])).1.length ≤ score) ∧
        (∀ j < i,
          (match_candidate gen co ocr (records.getD j [])).1.length < score) ∧
        mml ≤ (score : Int)) ∧
    ((∀ r ∈ records, ((match_candidate gen co ocr r).1.length : Int) < mml) →
      select_candidate results
        (records.map fun r => (match_candidate gen co ocr r).1) mml = none) := by
  have hmapgetD : ∀ i, i < records.length →
      ((records.map fun r => (match_candidate gen co ocr r).1).getD i []) =
        (match_candidate gen co ocr (records.getD i [])).1 := by
    intro i hi
    rw [List.getD_eq_getElem _ _ (by simpa using hi), List.getD_eq_getElem _ _ hi,
      List.getElem_map]
  constructor
  · intro rid score align h
    obtain ⟨i, _, hilt, hrid, halign, hscore, hmax, hfirst, hth⟩ :=
      select_candidate_eq_some h
    rw [List.length_map] at hilt
    refine ⟨i, hilt, hrid, ?_, ?_, ?_, ?_, hth⟩
    · rw [halign, hmapgetD i hilt]
    · rw [hscore, hmapgetD i hilt]
    · intro j hj
      have := hmax j (by simpa using hj)
      rwa [hmapgetD j hj] at this
    · intro j hj
      have := hfirst j hj
      rwa [hmapgetD j (lt_trans hj hilt)] at this
  · intro hall
    refine select_candidate_none_of_below ?_
    intro m hm
    rw [List.mem_map] at hm
    obtain ⟨r, hr, rfl⟩ := hm
    exact hall r hr

/-- Claim C3 witness: two candidates with scores 1 and 2 and threshold 2 —
the second is emitted with its score and resolved alignment. -/
theorem selector_spec_witness :
    select_candidate ["r1".data, "r2".data]
        ([[("Title".data, "ab".data)],
          [("Title".data, "ab".data), ("ID".data, "cd".data)]].map fun r =>
          (match_candidate (fun l t => [(l, t)]) correct_overlaps "ab cd".data r).1) 2 =
      some ("r2".data, 2,
        [⟨"Title".data, "ab".data, 0, 2⟩, ⟨"ID".data, "cd".data, 3, 5⟩]) ∧
    (2 : Int) ≤ ((2 : Nat) : Int) := by
  refine ⟨by decide, ?_⟩
  obtain ⟨i, _, _, _, _, _, _, hth⟩ :=
    (selector_spec (fun l t => [(l, t)]) correct_overlaps "ab cd".data
        ["r1".data, "r2".data]
        [[("Title".data, "ab".data)],
         [("Title".data, "ab".data), ("ID".data, "cd".data)]] 2).1
      "r2".data 2 [⟨"Title".data, "ab".data, 0, 2⟩, ⟨"ID".data, "cd".data, 3, 5⟩]
      (by decide)
  exact hth

/-- Claim C10: under a positive `--min-matched-lines` threshold (the default
is 3), a candidate record with zero fields surviving verification is never
the emitted best match, regardless of its position in the retrieval
ranking. -/
theorem zero_score_never_selected (gen : Text → Text → List (Text × Text))
    (co : List AlignedField → Except Text (List AlignedField))
    (ocr : Text) (results : List Text) (records : List (List (Text × Text)))
    (mml : Int) (hpos : 1 ≤ mml) :
    (∀ rid score align,
      select_candidate results
          (records.map fun r => (match_candidate gen co ocr r).1) mml =
        some (rid, score, align) →
      0 < score ∧ align ≠ [] ∧
      ∃ i, i < records.length ∧
        align = (match_candidate gen co ocr (records.getD i [])).1 ∧
        (match_candidate gen co ocr (records.getD i [])).1 ≠ []) ∧
    (1 : Int) ≤ min_matched_lines_default := by
  constructor
  · intro rid score align h
    obtain ⟨i, _, hilt, hrid, halign, hscore, hmax, hfirst, hth⟩ :=
      select_candidate_eq_some h
    rw [List.length_map] at hilt
    have hmapgetD :
        ((records.map fun r => (match_candidate gen co ocr r).1).getD i []) =
          (match_candidate gen co ocr (records.getD i [])).1 := by
      rw [List.getD_eq_getElem _ _ (by simpa using hilt), List.getD_eq_getElem _ _ hilt,
        List.getElem_map]
    have hposs : 0 < score := by omega
    have hane : align ≠ [] := by
      rw [halign]
      intro hc
      rw [hc] at hscore
      simp at hscore
      omega
    refine ⟨hposs, hane, i, hilt, ?_, ?_⟩
    · rw [halign, hmapgetD]
    · rw [← hmapgetD, ← halign]
      exact hane
  · simp [min_matched_lines_default]

/-- Claim C10 witness: a zero-field candidate ranked first is passed over in
favor of a lower-ranked candidate with three surviving fields, at the default
threshold 3. -/
theorem zero_score_never_selected_witness :
    select_candidate ["r1".data, "r2".data]
        ([[], [("Title".data, "ab".data), ("ID".data, "cd".data),
               ("Date".data, "ef".data)]].map fun r =>
          (match_candidate (fun l t => [(l, t)]) correct_overlaps "ab cd ef".data r).1)
        min_matched_lines_default =
      some ("r2".data, 3,
        [⟨"Title".data, "ab".data, 0, 2⟩, ⟨"ID".data, "cd".data, 3, 5⟩,
         ⟨"Date".data, "ef".data, 6, 8⟩]) ∧
    (0 : Nat) < 3 := by
  refine ⟨by decide, ?_⟩
  obtain ⟨h0, -, -⟩ :=
    ((zero_score_never_selected (fun l t => [(l, t)]) correct_overlaps
        "ab cd ef".data ["r1".data, "r2".data]
        [[], [("Title".data, "ab".data), ("ID".data, "cd".data),
              ("Date".data, "ef".data)]]
        min_matched_lines_default (by decide)).1
      "r2".data 3
      [⟨"Title".data, "ab".data, 0, 2⟩, ⟨"ID".data, "cd".data, 3, 5⟩,
       ⟨"Date".data, "ef".data, 6, 8⟩]
      (by decide))
  exact h0

/-! ## Lemmas about overlap resolution and re-slicing -/

theorem pySliceNat_length {s : Text} {a b : Nat} (hb : b ≤ s.length) :
    (pySliceNat s a b).length = b - a := by
  simp only [pySliceNat, List.length_take, List.length_drop]
  omega

theorem pySliceNat_infix (s : Text) (a b : Nat) : pySliceNat s a b <:+: s :=
  (List.take_prefix _ _).isInfix.trans (List.drop_suffix _ _).isInfix

theorem candidate_fields_bounds (gen : Text → Text → List (Text × Text))
    (ocr : Text) (db_entries : List (Text × Text)) :
    ∀ f ∈ candidate_fields gen ocr db_entries, f.start ≤ f.stop ∧ f.stop ≤ ocr.length := by
  intro f hf
  unfold candidate_fields at hf
  rw [List.mem_filterMap] at hf
  obtain ⟨lt, _, hlt⟩ := hf
  split at hlt
  · cases hlt
  · split at hlt
    · cases hlt
    · rename_i lowest hmin
      cases hlt
      have hm := mem_find_near_matches.mp (pymin_mem hmin)
      exact ⟨hm.1, hm.2.1⟩

theorem resolveSweep_shape : ∀ (l : List AlignedField) (cur : Nat),
    ∀ f ∈ resolveSweep cur l, (∃ g ∈ l, f.stop = g.stop) ∧ f.start < f.stop := by
  intro l
  induction l with
  | nil => intro cur f hf; cases hf
  | cons a as ih =>
    intro cur f hf
    simp only [resolveSweep] at hf
    split at hf
    · rename_i hguard
      rcases List.mem_cons.mp hf with rfl | hf'
      · exact ⟨⟨a, List.mem_cons_self _ _, rfl⟩, hguard⟩
      · obtain ⟨⟨g, hg, hstop⟩, hlt⟩ := ih a.stop f hf'
        exact ⟨⟨g, List.mem_cons_of_mem _ hg, hstop⟩, hlt⟩
    · obtain ⟨⟨g, hg, hstop⟩, hlt⟩ := ih cur f hf
      exact ⟨⟨g, List.mem_cons_of_mem _ hg, hstop⟩, hlt⟩

/-- Claim C6: after overlap resolution, every surviving span's text field is
re-sliced from the original OCR text at its final range (replacing the
provisionally matched text recorded by the matcher), and the re-sliced text
is a substring of the card text whose length equals `end - start`. -/
theorem reslice_spec (gen : Text → Text → List (Text × Text)) (ocr : Text)
    (db_entries : List (Text × Text)) :
    ∀ f ∈ (match_candidate gen correct_overlaps ocr db_entries).1,
      f.text = pySliceNat ocr f.start f.stop ∧
      f.text.length = f.stop - f.start ∧
      f.text <:+: ocr ∧
      f.start ≤ f.stop ∧ f.stop ≤ ocr.length := by
  intro f hf
  unfold match_candidate at hf
  cases hco : correct_overlaps (candidate_fields gen ocr db_entries) with
  | error e => rw [hco] at hf; cases hf
  | ok resolved =>
    rw [hco] at hf
    simp only [List.mem_map] at hf
    obtain ⟨g, hg, rfl⟩ := hf
    unfold correct_overlaps at hco
    split at hco
    · cases hco
    · cases hco
      obtain ⟨⟨g0, hg0, hstop⟩, hlt⟩ := resolveSweep_shape _ _ g hg
      have hg0mem : g0 ∈ candidate_fields gen ocr db_entries :=
        (List.perm_insertionSort fieldLe _).mem_iff.mp hg0
      have hb := candidate_fields_bounds gen ocr db_entries g0 hg0mem
      have hstople : g.stop ≤ ocr.length := hstop ▸ hb.2
      refine ⟨rfl, pySliceNat_length hstople, pySliceNat_infix _ _ _, le_of_lt hlt, hstople⟩

/-- Claim C6 witness: a concrete resolved span re-sliced from `"ab cd"`. -/
theorem reslice_spec_witness :
    (⟨"Title".data, "ab".data, 0, 2⟩ : AlignedField) ∈
      (match_candidate (fun l t => [(l, t)]) correct_overlaps "ab cd".data
        [("Title".data, "ab".data)]).1 ∧
    ("ab".data : Text) = pySliceNat "ab cd".data 0 2 ∧
    ("ab".data : Text).length = 2 - 0 :=
  ⟨by decide,
   (reslice_spec (fun l t => [(l, t)]) "ab cd".data [("Title".data, "ab".data)]
      ⟨"Title".data, "ab".data, 0, 2⟩ (by decide)).1,
   (reslice_spec (fun l t => [(l, t)]) "ab cd".data [("Title".data, "ab".data)]
      ⟨"Title".data, "ab".data, 0, 2⟩ (by decide)).2.1⟩

/-! ## Error handling: resolver failures, timeouts, fatal card errors -/

/-- Claim C8 (amended): if overlap resolution raises any exception while
verifying a candidate, that candidate's verification yields an empty
alignment and hence a score of zero, the failure is logged (with the constant
message `"Error during correcting overlaps"`, which does not include the
record identifier), and processing continues with the remaining candidates
instead of aborting the batch. -/
theorem resolver_failure_spec (gen : Text → Text → List (Text × Text))
    (co : List AlignedField → Except Text (List AlignedField))
    (ocr : Text) (db_entries : List (Text × Text)) (err : Text)
    (h : co (candidate_fields gen ocr db_entries) = .error err) :
    match_candidate gen co ocr db_entries =
      ([], ["Error during correcting overlaps".data]) ∧
    (match_candidate gen co ocr db_entries).1.length = 0 ∧
    (∀ pre post : List (List (Text × Text)),
      (pre ++ db_entries :: post).map (fun r => (match_candidate gen co ocr r).1) =
        pre.map (fun r => (match_candidate gen co ocr r).1) ++
          [] :: post.map (fun r => (match_candidate gen co ocr r).1)) := by
  have h1 : match_candidate gen co ocr db_entries =
      ([], ["Error during correcting overlaps".data]) := by
    unfold match_candidate
    rw [h]
  refine ⟨h1, by simp [h1], ?_⟩
  intro pre post
  simp [h1]

/-- Claim C7: candidate retrieval runs under the hard wall-clock budget of
`@timeout(60)`; a timeout makes the card be reported as skipped (logged with
the file path), never retried, and the loop continues with the next card
while the outputs accumulated for earlier cards remain unchanged. -/
theorem timeout_skip_spec (gen : Text → Text → List (Text × Text)) (env : Env)
    (mml : Int) (st : RunState) (line : Text) (rest : List Text)
    (ocr : Text) (parsed : List (Text × List Text))
    (hocr : load_ocr (pyStrip ((pySplitTab line).headD [])) env.txn_ocr = .ok ocr)
    (hparse : parse_alignments (pySplitTab line).tail ocr = .ok parsed)
    (htime : search_phrase env.searcher parsed ocr = .timeout) :
    process_line gen env mml st line = .ok
      { st with nb_cards_searched := st.nb_cards_searched + 1,
                log := st.log ++ [timeout_msg ((pySplitTab line).headD [])] } ∧
    (∀ st', process_line gen env mml st line = .ok st' →
      st'.matching_output = st.matching_output ∧
      st'.alignment_output = st.alignment_output) ∧
    run_lines gen env mml (line :: rest) st = run_lines gen env mml rest
      { st with nb_cards_searched := st.nb_cards_searched + 1,
                log := st.log ++ [timeout_msg ((pySplitTab line).headD [])] } ∧
    search_timeout_seconds = 60 := by
  have h1 : process_line gen env mml st line = .ok
      { st with nb_cards_searched := st.nb_cards_searched + 1,
                log := st.log ++ [timeout_msg ((pySplitTab line).headD [])] } := by
    simp only [process_line, hocr, hparse, htime]
  refine ⟨h1, ?_, ?_, rfl⟩
  · intro st' hst'
    rw [h1] at hst'
    cases hst'
    exact ⟨rfl, rfl⟩
  · unfold run_lines
    rw [List.foldlM_cons, h1]
    rfl

/-- Claim C7 witness: a searcher that times out on a concrete card. -/
theorem timeout_skip_spec_witness :
    process_line (fun l t => [(l, t)])
        ⟨fun _ => some [], fun _ => some [], fun _ => .timeout⟩ 3
        ⟨0, [], [], []⟩ "card1".data =
      .ok ⟨1, [], [], [timeout_msg "card1".data]⟩ ∧
    search_timeout_seconds = 60 := by
  have h := timeout_skip_spec (fun l t => [(l, t)])
      ⟨fun _ => some [], fun _ => some [], fun _ => .timeout⟩ 3 ⟨0, [], [], []⟩
      "card1".data [] [] [] rfl rfl rfl
  exact ⟨h.1, h.2.2.2⟩

/-- Claim C8 counterexample to the claim as stated: the log line printed on a
resolver failure is the constant `"Error during correcting overlaps"`; it
does not contain the record identifier (here `"r1"`), and it is identical
across distinct candidates — `match_candidate` does not even receive the
record identifier. -/
theorem resolver_failure_log_counterexample :
    (match_candidate (fun l t => [(l, t)]) (fun _ => .error "overlap failure".data)
        "ab".data [("Title".data, "ab".data)]).2 =
      ["Error during correcting overlaps".data] ∧
    contains_sub "r1".data "Error during correcting overlaps".data = false ∧
    (match_candidate (fun l t => [(l, t)]) (fun _ => .error "overlap failure".data)
        "ab".data [("Title".data, "ab".data)]).2 =
      (match_candidate (fun l t => [(l, t)]) (fun _ => .error "overlap failure".data)
        "cd ef".data [("ID".data, "cd".data)]).2 := by
  exact ⟨by decide, by decide, by decide⟩

/-- Claim C8 witness: a concrete failing resolver yields the empty alignment
and the constant log line. -/
theorem resolver_failure_spec_witness :
    (fun _ : List AlignedField =>
        (.error "overlap failure".data : Except Text (List AlignedField)))
      (candidate_fields (fun l t => [(l, t)]) "ab".data [("Title".data, "ab".data)]) =
      .error "overlap failure".data ∧
    match_candidate (fun l t => [(l, t)]) (fun _ => .error "overlap failure".data)
        "ab".data [("Title".data, "ab".data)] =
      ([], ["Error during correcting overlaps".data]) :=
  ⟨rfl, (resolver_failure_spec (fun l t => [(l, t)])
      (fun _ => .error "overlap failure".data) "ab".data
      [("Title".data, "ab".data)] "overlap failure".data rfl).1⟩

/-- Claim C9 (amended): a malformed input line, missing OCR text for a card,
or a missing record document raises an exception the main loop does not
catch (it handles only `KeyboardInterrupt`), so the error is fatal: the
batch aborts and the remaining cards are never processed. -/
theorem card_errors_fatal (gen : Text → Text → List (Text × Text)) (env : Env)
    (mml : Int) :
    (∀ st line rest e, process_line gen env mml st line = .error e →
      run_lines gen env mml (line :: rest) st = .error e) ∧
    (∀ st line, env.txn_ocr (pyStrip ((pySplitTab line).headD [])) = none →
      process_line gen env mml st line = .error .missingOcr) ∧
    (∀ st line ocr, load_ocr (pyStrip ((pySplitTab line).headD [])) env.txn_ocr = .ok ocr →
      parse_alignments (pySplitTab line).tail ocr = .error .malformedLine →
      process_line gen env mml st line = .error .malformedLine) ∧
    (∀ st line ocr parsed results,
      load_ocr (pyStrip ((pySplitTab line).headD [])) env.txn_ocr = .ok ocr →
      parse_alignments (pySplitTab line).tail ocr = .ok parsed →
      search_phrase env.searcher parsed ocr = .ok results →
      results.mapM env.txn_bib = none →
      process_line gen env mml st line = .error .missingRecord) := by
  refine ⟨?_, ?_, ?_, ?_⟩
  · intro st line rest e h
    unfold run_lines
    rw [List.foldlM_cons, h]
    rfl
  · intro st line hocr
    simp only [process_line, load_ocr, hocr]
  · intro st line ocr hocr hparse
    simp only [process_line, hocr, hparse]
  · intro st line ocr parsed results hocr hparse hsearch hbib
    simp only [process_line, hocr, hparse, hsearch, hbib]

/-- Claim C9 counterexample to the claim as stated: a batch whose first line
is malformed aborts with an error instead of skipping the card — the second
card, which on its own produces an emitted match, is never processed and its
output is lost. -/
theorem card_errors_counterexample :
    run_lines (fun l t => [(l, t)])
        ⟨fun _ => some "ab".data, fun _ => some [], fun _ => .ok ["r1".data]⟩ 0
        ["card2	BadAlign".data, "card1".data] ⟨0, [], [], []⟩ =
      .error .malformedLine ∧
    run_lines (fun l t => [(l, t)])
        ⟨fun _ => some "ab".data, fun _ => some [], fun _ => .ok ["r1".data]⟩ 0
        ["card1".data] ⟨0, [], [], []⟩ =
      .ok ⟨1, "card1	r1	0
".data, "card1
".data, []⟩ := by
  exact ⟨by rfl, by rfl⟩

/-- Claim C9 witness for the amended claim: a missing OCR text aborts the
run, leaving the following card unprocessed. -/
theorem card_errors_fatal_witness :
    process_line (fun l t => [(l, t)])
        ⟨fun _ => none, fun _ => some [], fun _ => .ok []⟩ 3 ⟨0, [], [], []⟩
        "card1".data = .error .missingOcr ∧
    run_lines (fun l t => [(l, t)])
        ⟨fun _ => none, fun _ => some [], fun _ => .ok []⟩ 3
        ["card1".data, "card2".data] ⟨0, [], [], []⟩ = .error .missingOcr := by
  have h := card_errors_fatal (fun l t => [(l, t)])
      ⟨fun _ => none, fun _ => some [], fun _ => .ok []⟩ 3
  have h2 := h.2.1 ⟨0, [], [], []⟩ "card1".data rfl
  exact ⟨h2, h.1 _ _ ["card2".data] _ h2⟩

end MzkKarticky
